import Mathlib

/-!
Verification of the `A2C.train` step of
`src/stable-baselines3/stable_baselines3/a2c/a2c.py` (repository Qorl).

The train step dispatches on `optimize_choice` into three branches:
the plain ("base") branch (lines 276-282), the SAM branch (lines 240-274)
and the HERO branch (lines 181-238).  The numeric content is embedded
shallowly:

* tensors are `List ℚ` (one rational per scalar component); every model
  parameter is a named contiguous block of indices into one global
  component store `θ : List ℚ`;
* the differentiable loss is a symbolic expression `Expr` over the
  component variables; `Expr.deriv` is syntactic differentiation, so a
  gradient is itself an `Expr` and can be differentiated again — this
  mirrors `th.autograd.grad(..., create_graph=True)` followed by
  `hero_loss.backward()` (a second-order backward pass);
* `param.grad` being `None` in PyTorch is modelled as `Option`:
  after a backward pass a parameter has a gradient exactly when one of
  its components occurs in the loss expression;
* exceptions raised by the Python code are `Except.error`;
* the exact square root used inside gradient norms is passed in as a
  function argument `rt : ℚ → ℚ` (the reals' square root is not rational;
  every theorem below either holds for all `rt` or is instantiated at an
  input whose root is rational, where `rt` is pinned to that exact value).
-/

/-- Arithmetic expressions over the flat parameter components.
`var j` is the j-th scalar component of the model's parameter vector. -/
inductive Expr where
  | const : ℚ → Expr
  | var : Nat → Expr
  | add : Expr → Expr → Expr
  | mul : Expr → Expr → Expr
  | neg : Expr → Expr
deriving DecidableEq

/-- Evaluate an expression at a component store `θ` (missing indices read 0). -/
def Expr.eval (θ : List ℚ) : Expr → ℚ
  | const c => c
  | var j => θ.getD j 0
  | add a b => a.eval θ + b.eval θ
  | mul a b => a.eval θ * b.eval θ
  | neg a => -(a.eval θ)

/-- Syntactic partial derivative with respect to component `j`.  The result is
again an expression, so it can be differentiated once more — the analogue of
`create_graph=True`. -/
def Expr.deriv (j : Nat) : Expr → Expr
  | const _ => const 0
  | var i => const (if i = j then 1 else 0)
  | add a b => add (a.deriv j) (b.deriv j)
  | mul a b => add (mul (a.deriv j) b) (mul a (b.deriv j))
  | neg a => neg (a.deriv j)

/-- Whether component `j` occurs in the expression.  A parameter is part of the
computation graph of a scalar exactly when one of its components occurs in the
scalar's expression; after `backward` its `.grad` is populated iff so. -/
def Expr.occurs (j : Nat) : Expr → Bool
  | const _ => false
  | var i => i == j
  | add a b => a.occurs j || b.occurs j
  | mul a b => a.occurs j || b.occurs j
  | neg a => a.occurs j

/-- Difference of expressions. -/
def Expr.sub (a b : Expr) : Expr := Expr.add a (Expr.neg b)

/-- One named model parameter: `name` as reported by `named_parameters()`,
`idxs` the indices of its scalar components in the global store. -/
structure Param where
  name : String
  idxs : List Nat
deriving DecidableEq

instance : Inhabited Param := ⟨⟨"", []⟩⟩

/-- Does `needle` start `hay`?  Helper for Python's `in` substring test. -/
def strStarts : List Char → List Char → Bool
  | [], _ => true
  | _ :: _, [] => false
  | a :: as, b :: bs => a == b && strStarts as bs

/-- Python's `needle in hay` on strings: substring containment. -/
def strHasSub (needle : List Char) : List Char → Bool
  | [] => strStarts needle []
  | c :: rest => strStarts needle (c :: rest) || strHasSub needle rest

/-- Line 230: `if 'bias' not in name and 'bn' not in name`.  A parameter takes
part in the curvature (HERO) loss exactly when its name contains neither the
bias marker nor the batch-normalization marker. -/
def weight_filter (name : String) : Bool :=
  !(strHasSub "bias".toList name.toList) && !(strHasSub "bn".toList name.toList)

/-- Module-level constant `lambda_hero = 1` (line 19 of a2c.py). -/
def lambda_hero : ℚ := 1

/-- Module-level constant `adaptive = True` (line 16 of a2c.py), forwarded to
the SAM optimizer in both the SAM and HERO branches. -/
def adaptive : Bool := true

/-- Whether the parameter is connected to the loss graph — after
`loss.backward()` its `.grad` is a tensor (rather than `None`) iff so. -/
def Param.connected (lossE : Expr) (p : Param) : Bool :=
  p.idxs.any (fun j => lossE.occurs j)

/-- The gradient tensor of one parameter after a backward pass on `lossE` at
the point `θ`; `none` models PyTorch's `param.grad is None` for a parameter
that is disconnected from the loss. -/
def backwardGrad (lossE : Expr) (θ : List ℚ) (p : Param) : Option (List ℚ) :=
  if p.connected lossE then some (p.idxs.map (fun j => (lossE.deriv j).eval θ))
  else none

/-- The per-parameter gradients populated by `loss.backward()` at point `θ`
(lines 185, 244, 278). -/
def backwardGrads (lossE : Expr) (θ : List ℚ) (policy : List Param) :
    List (Option (List ℚ)) :=
  policy.map (backwardGrad lossE θ)

/-- Lines 186-189 of the HERO branch: `loss_grads.append(param.grad.data.clone().detach())`
for every parameter.  When a parameter's grad is `None` (disconnected
computation path) the attribute access `param.grad.data` raises, so the whole
step raises; the loop stops at the first such parameter. -/
def heroSnapshot (lossE : Expr) (θ : List ℚ) : List Param → Except String (List (List ℚ))
  | [] => .ok []
  | p :: ps =>
    match backwardGrad lossE θ p with
    | none => .error "AttributeError: NoneType has no attribute data"
    | some g =>
      match heroSnapshot lossE θ ps with
      | .error e => .error e
      | .ok gs => .ok (g :: gs)

/-- Modelled from the spec: the gradient-norm argument of `SAM.first_step`
(class `HERO.sam.SAM` is imported at line 12 of a2c.py but its file is not
under src/).  Spec section 4.2 step 3: the squared norm is the sum over all
parameter gradients of the squared entries, each entry first multiplied by the
absolute value of its parameter when `adaptive` is enabled.  Parameters whose
grad is `None` contribute nothing. -/
def gradNormSq (lossE : Expr) (θ : List ℚ) (policy : List Param) : ℚ :=
  (policy.map (fun p =>
    if p.connected lossE then
      (p.idxs.map (fun j =>
        ((if adaptive then |θ.getD j 0| else 1) * (lossE.deriv j).eval θ) ^ 2)).sum
    else 0)).sum

/-- Modelled from the spec: `SAM.first_step` (not under src/), spec section 4.2
steps 3-4: `scale = rho / (norm + 1e-12)` and, for every component of every
parameter that has a gradient,
`value += scale * gradient * (|param| if adaptive else 1)`.
`rt` stands for the exact square root applied to the squared norm. -/
def first_step (rt : ℚ → ℚ) (rho : ℚ) (lossE : Expr) (policy : List Param)
    (θ : List ℚ) : List ℚ :=
  let scale := rho / (rt (gradNormSq lossE θ policy) + 1 / 10 ^ 12)
  θ.enum.map (fun jv =>
    if policy.any (fun p => decide (jv.1 ∈ p.idxs) && p.connected lossE) then
      jv.2 + scale * (lossE.deriv jv.1).eval θ * (if adaptive then |jv.2| else 1)
    else jv.2)

/-- Lines 222-223: `th.autograd.grad(loss_new, self.policy.parameters(),
retain_graph=True, create_graph=True)`.  The result is one still-differentiable
gradient expression per component.  `autograd.grad` raises for a parameter that
was not used in the graph (no `allow_unused=True` is passed). -/
def heroLiveExprs (lossE : Expr) : List Param → Except String (List (List Expr))
  | [] => .ok []
  | p :: ps =>
    if p.connected lossE then
      match heroLiveExprs lossE ps with
      | .error e => .error e
      | .ok gs => .ok (p.idxs.map (fun j => lossE.deriv j) :: gs)
    else .error "RuntimeError: a differentiated Tensor was not used in the graph"

/-- The detached copies `loss_grads_copy` (lines 224-226): the numeric values of
the live gradient expressions at the current (perturbed) point. -/
def heroPostCopies (lossE : Expr) (θ : List ℚ) (policy : List Param) :
    List (List ℚ) :=
  policy.map (fun p => p.idxs.map (fun j => (lossE.deriv j).eval θ))

/-- Broadcast a singleton tensor to length `n` (PyTorch broadcasting of a
size-1 dimension); any other tensor is returned unchanged. -/
def bcastE (n : Nat) : List Expr → List Expr
  | [e] => List.replicate n e
  | l => l

/-- Broadcast a singleton numeric tensor to length `n`. -/
def bcastQ (n : Nat) : List ℚ → List ℚ
  | [x] => List.replicate n x
  | l => l

/-- The expression `mean((live - snap)^2)`: the value of
`th.nn.MSELoss()(grad_copy, grad)` with `grad_copy` still attached to the
graph (a vector of expressions) and `grad` a detached numeric tensor. -/
def mseExprCore (c : List Expr) (g : List ℚ) : Expr :=
  Expr.mul (Expr.const (1 / (c.length : ℚ)))
    ((List.zipWith (fun e x =>
        Expr.mul (Expr.sub e (Expr.const x)) (Expr.sub e (Expr.const x))) c g).foldl
      Expr.add (Expr.const 0))

/-- `criterion_hero(grad_copy, grad)` (line 234).  `nn.MSELoss` broadcasts a
size-1 operand and raises a `RuntimeError` for any other size mismatch. -/
def mseExprE (c : List Expr) (g : List ℚ) : Except String Expr :=
  if c.length = g.length ∨ c.length = 1 ∨ g.length = 1 then
    let n := Nat.max c.length g.length
    .ok (mseExprCore (bcastE n c) (bcastQ n g))
  else .error "RuntimeError: mse size mismatch"

/-- Lines 229-234, the curvature-loss accumulation: for every
`(name, param)` of `named_parameters()` in order, when the name passes the
bias/bn filter, the entry of `zip(loss_grads, loss_grads_new)` at the same
index (if any — `zip` truncates to the shorter list) contributes the term
`lambda_hero * MSELoss(grad_copy, grad)`.  The `!= None` guards at line 233
always pass here: every entry of both lists is an actual tensor by
construction.  Returns the list of accumulated terms, in loop order. -/
def heroSumE : List Param → List (List ℚ) → List (List Expr) → Except String (List Expr)
  | [], _, _ => .ok []
  | _, [], _ => .ok []
  | _, _, [] => .ok []
  | p :: ps, g :: gs, c :: cs =>
    if weight_filter p.name then
      match mseExprE c g with
      | .error e => .error e
      | .ok m =>
        match heroSumE ps gs cs with
        | .error e => .error e
        | .ok rest => .ok (Expr.mul (Expr.const lambda_hero) m :: rest)
    else heroSumE ps gs cs

/-- The scalar `hero_loss` built from the accumulated terms: the code starts
from the float `0.` and adds each term in order. -/
def heroLossExpr (terms : List Expr) : Expr :=
  terms.foldl Expr.add (Expr.const 0)

/-- Line 235, `hero_loss.backward()`: populates `param.grad` with the gradient
of the curvature loss at the current (perturbed) point for every parameter in
its graph; a parameter not in the graph keeps `grad = None` (the grads were
cleared by `first_step(zero_grad=True)`, with PyTorch's set-to-none default). -/
def heroBackwardGrads (heroE : Expr) (θ : List ℚ) (policy : List Param) :
    List (Option (List ℚ)) :=
  policy.map (fun p =>
    if p.idxs.any (fun j => heroE.occurs j) then
      some (p.idxs.map (fun j => (heroE.deriv j).eval θ))
    else none)

/-- One `param.grad += grad` (line 237): raises when `param.grad` is `None`;
in-place addition broadcasts a size-1 right-hand side and raises on any other
size mismatch. -/
def gradAccum (cur : Option (List ℚ)) (g : List ℚ) : Except String (List ℚ) :=
  match cur with
  | none => .error "TypeError: unsupported operand for NoneType"
  | some h =>
    if g.length = h.length then .ok (List.zipWith (· + ·) h g)
    else
      match g with
      | [x] => .ok (h.map (· + x))
      | _ => .error "RuntimeError: grad size mismatch"

/-- Lines 236-237: `for param, grad in zip(self.policy.parameters(),
loss_grads_copy): param.grad += grad`, combining the curvature-loss gradients
with the detached post-perturbation copies. -/
def heroCombine : List (Option (List ℚ)) → List (List ℚ) →
    Except String (List (Option (List ℚ)))
  | _, [] => .ok []
  | [], _ => .ok []
  | hg :: hgs, c :: cs =>
    match gradAccum hg c with
    | .error e => .error e
    | .ok g =>
      match heroCombine hgs cs with
      | .error e => .error e
      | .ok gs => .ok (some g :: gs)

deriving instance DecidableEq for Except

/-- Outcome of one branch of the train step.  `paramsAtEnd` is the component
store at the moment the branch returns or raises: on success `second_step` has
reverted the parameters to the entry point and hands `descentGrads` to the
base optimizer (whose SGD update is outside this model); on error it is the
store at the moment the exception propagates. -/
structure StepTrace where
  paramsAtEnd : List ℚ
  descentGrads : Except String (List (Option (List ℚ)))
deriving DecidableEq

/-- The HERO branch (lines 181-238).  `policy1` is the parameter enumeration
seen by the first pass (lines 182-191), `policy2` the one seen by the second
pass (lines 222-237); they are the same list unless the policy's parameter set
mutates between the passes. -/
def heroTrain (rt : ℚ → ℚ) (rho : ℚ) (lossE : Expr) (policy1 policy2 : List Param)
    (θ0 : List ℚ) : StepTrace :=
  match heroSnapshot lossE θ0 policy1 with
  | .error e => ⟨θ0, .error e⟩
  | .ok loss_grads =>
    let θ1 := first_step rt rho lossE policy1 θ0
    match heroLiveExprs lossE policy2 with
    | .error e => ⟨θ1, .error e⟩
    | .ok live =>
      let loss_grads_copy := live.map (fun v => v.map (fun e => e.eval θ1))
      match heroSumE policy2 loss_grads live with
      | .error e => ⟨θ1, .error e⟩
      | .ok terms =>
        if terms.isEmpty then
          ⟨θ1, .error "AttributeError: float has no attribute backward"⟩
        else
          match heroCombine (heroBackwardGrads (heroLossExpr terms) θ1 policy2)
              loss_grads_copy with
          | .error e => ⟨θ1, .error e⟩
          | .ok combined => ⟨θ0, .ok combined⟩

/-- The SAM branch (lines 240-274): backward at the entry point, perturb via
`first_step`, recompute the loss at the perturbed point, backward again, and
`second_step` (spec section 4.2): revert to the entry point and descend with
the freshly populated gradients. -/
def samTrain (rt : ℚ → ℚ) (rho : ℚ) (lossE : Expr) (policy : List Param)
    (θ0 : List ℚ) : StepTrace :=
  let θ1 := first_step rt rho lossE policy θ0
  ⟨θ0, .ok (backwardGrads lossE θ1 policy)⟩

/-- Line 281, `th.nn.utils.clip_grad_norm_(parameters, max_grad_norm)`:
the global L2 norm over all present gradients; every gradient is scaled by
`max_norm / (norm + 1e-6)` when that coefficient is below 1. -/
def clip_grad_norm (rt : ℚ → ℚ) (max_norm : ℚ) (gs : List (Option (List ℚ))) :
    List (Option (List ℚ)) :=
  let totalSq := (gs.map (fun og =>
    match og with
    | some g => (g.map (fun x => x ^ 2)).sum
    | none => 0)).sum
  let coef := max_norm / (rt totalSq + 1 / 10 ^ 6)
  if coef < 1 then gs.map (Option.map (List.map (fun x => coef * x))) else gs

/-- The base branch (lines 276-282): `zero_grad`, one backward pass on the
total loss, gradient-norm clipping at `max_grad_norm`, one optimizer step at
the entry point. -/
def baseTrain (rt : ℚ → ℚ) (max_grad_norm : ℚ) (lossE : Expr)
    (policy : List Param) (θ0 : List ℚ) : StepTrace :=
  ⟨θ0, .ok (clip_grad_norm rt max_grad_norm (backwardGrads lossE θ0 policy))⟩

/-- The dispatch on `optimize_choice` (lines 181, 240, 276): `"HERO"`,
`"SAM"`, and everything else falls through to the base branch. -/
def trainStep (optimize_choice : String) (rt : ℚ → ℚ) (rho max_grad_norm : ℚ)
    (lossE : Expr) (policy : List Param) (θ0 : List ℚ) : StepTrace :=
  if optimize_choice = "HERO" then heroTrain rt rho lossE policy policy θ0
  else if optimize_choice = "SAM" then samTrain rt rho lossE policy θ0
  else baseTrain rt max_grad_norm lossE policy θ0

/-- The value of `th.mean` on a flat tensor, in the rational model. -/
def meanQ (xs : List ℚ) : ℚ := xs.sum / xs.length

/-- The result of `self.policy.evaluate_actions(observations, actions)`
(line 158): value predictions (already flattened), per-transition action
log-probabilities, and the analytic entropy when the action distribution has
one (`None` otherwise). -/
structure EvalOut where
  values : List ℚ
  log_prob : List ℚ
  entropy : Option (List ℚ)
deriving DecidableEq

/-- The four scalar losses of one pass. -/
structure LossQuad where
  policy_loss : ℚ
  value_loss : ℚ
  entropy_loss : ℚ
  total_loss : ℚ
deriving DecidableEq

/-- Lines 158-179 (and their verbatim repetition at lines 198-219 and
251-272): `policy_loss = -(advantages * log_prob).mean()`,
`value_loss = F.mse_loss(rollout_data.returns, values)`,
`entropy_loss = -th.mean(-log_prob)` when `entropy is None` else
`-th.mean(entropy)`, and
`loss = policy_loss + ent_coef * entropy_loss + vf_coef * value_loss`.
`advantages` is the advantage tensor after the optional normalization. -/
def computeLosses (ent_coef vf_coef : ℚ) (advantages : List ℚ) (out : EvalOut)
    (returns : List ℚ) : LossQuad :=
  let policy_loss := -(meanQ (List.zipWith (· * ·) advantages out.log_prob))
  let value_loss := meanQ (List.zipWith (fun r v => (r - v) ^ 2) returns out.values)
  let entropy_loss :=
    match out.entropy with
    | none => -(meanQ (out.log_prob.map (fun l => -l)))
    | some ent => -(meanQ ent)
  ⟨policy_loss, value_loss, entropy_loss,
    policy_loss + ent_coef * entropy_loss + vf_coef * value_loss⟩

/-- Mean squared error as the spec words it (section 4.1): the mean of the
squared elementwise differences.  Stated separately from `computeLosses` to
compare the code's `F.mse_loss(returns, values)` against the spec's formula. -/
def mean_squared_error (a b : List ℚ) : ℚ :=
  meanQ (List.zipWith (fun x y => (x - y) ^ 2) a b)

/-- The local variables of one iteration of the training loop that are still
live at the logging calls (lines 289-292).  The first-pass sub-losses are
bound to `policy_loss`, `value_loss`, `entropy_loss`, `loss`; the SAM and HERO
branches bind their recomputed sub-losses to fresh `*_new` names
(`newLosses`), and the SAM branch additionally rebinds `loss` (line 272). -/
structure TrainLocals where
  policy_loss : ℚ
  value_loss : ℚ
  entropy_loss : ℚ
  loss : ℚ
  newLosses : Option LossQuad
deriving DecidableEq

/-- Variable flow of one loop iteration, at the loss-assembly level:
first-pass losses from the evaluation `out1` at the entry parameters
(lines 158-179); in the HERO branch (lines 198-219) and the SAM branch
(lines 251-272) the second evaluation `out2` at the perturbed parameters
populates only the `*_new` variables (and, for SAM, rebinds `loss`).
The advantage tensor is recomputed identically in both passes from the same
batch, hence a single `adv` argument. -/
def runBatchLocals (optimize_choice : String) (ent_coef vf_coef : ℚ)
    (adv : List ℚ) (out1 : EvalOut) (returns : List ℚ) (out2 : EvalOut) :
    TrainLocals :=
  let L1 := computeLosses ent_coef vf_coef adv out1 returns
  let base : TrainLocals :=
    ⟨L1.policy_loss, L1.value_loss, L1.entropy_loss, L1.total_loss, none⟩
  if optimize_choice = "HERO" then
    { base with newLosses := some (computeLosses ent_coef vf_coef adv out2 returns) }
  else if optimize_choice = "SAM" then
    let L2 := computeLosses ent_coef vf_coef adv out2 returns
    { base with newLosses := some L2, loss := L2.total_loss }
  else base

/-- Lines 289-291: the scalars recorded as `train/entropy_loss`,
`train/policy_loss` and `train/value_loss`, read from the unsuffixed local
variables. -/
def loggedMetrics (l : TrainLocals) : ℚ × ℚ × ℚ :=
  (l.entropy_loss, l.policy_loss, l.value_loss)

/-- Mean of a tensor, real-valued (for the advantage normalization, whose
`std` involves a square root). -/
noncomputable def torchMean (xs : List ℝ) : ℝ := xs.sum / xs.length

/-- `advantages.std()`: torch's default standard deviation, with Bessel's
correction (division by `n - 1`). -/
noncomputable def torchStd (xs : List ℝ) : ℝ :=
  Real.sqrt ((xs.map (fun x => (x - torchMean xs) ^ 2)).sum / ((xs.length : ℝ) - 1))

/-- Line 164: `(advantages - advantages.mean()) / (advantages.std() + 1e-8)`. -/
noncomputable def normalizeAdvantages (xs : List ℝ) : List ℝ :=
  xs.map (fun x => (x - torchMean xs) / (torchStd xs + 1e-8))

/-- Unbiased sample variance (the square of `torchStd`'s argument before the
root), matching torch's default `var`. -/
noncomputable def sampleVariance (xs : List ℝ) : ℝ :=
  (xs.map (fun x => (x - torchMean xs) ^ 2)).sum / ((xs.length : ℝ) - 1)

/-- The fixed advantage batch of spec section 8 item 6. -/
noncomputable def advBatch : List ℝ := [1, 1, 1, 1, 1, -1, -1, -1, -1, -1]

/-- Two per-parameter tensor lists agree at every index whose parameter passes
the bias/bn weight filter (alignment truncates to the shortest list, as the
code's `zip` does). -/
def includedAgree {α : Type} [DecidableEq α] :
    List Param → List α → List α → Bool
  | [], _, _ => true
  | _, [], _ => true
  | _, _, [] => true
  | p :: ps, g :: gs, c :: cs =>
    (!weight_filter p.name || decide (g = c)) && includedAgree ps gs cs

/-- At every aligned index whose parameter passes the weight filter, the live
gradient and the snapshot have the same number of components. -/
def shapesAligned : List Param → List (List ℚ) → List (List Expr) → Bool
  | [], _, _ => true
  | _, [], _ => true
  | _, _, [] => true
  | p :: ps, g :: gs, c :: cs =>
    (!weight_filter p.name || (c.length == g.length)) && shapesAligned ps gs cs

/-- The gradient combination claim C1 (and spec section 4.4) describe:
backpropagate the curvature loss and then add the detached snapshot of the
FIRST, pre-perturbation backward pass onto it.  This follows the claim's
words, not the code — `heroTrain` instead adds `loss_grads_copy`, the
detached copy of the post-perturbation gradients.  Stated only to be compared
against `heroTrain`. -/
def heroCombinePreSnapshot (rt : ℚ → ℚ) (rho : ℚ) (lossE : Expr)
    (policy : List Param) (θ0 : List ℚ) :
    Except String (List (Option (List ℚ))) :=
  match heroSnapshot lossE θ0 policy with
  | .error e => .error e
  | .ok snap =>
    let θ1 := first_step rt rho lossE policy θ0
    match heroLiveExprs lossE policy with
    | .error e => .error e
    | .ok live =>
      match heroSumE policy snap live with
      | .error e => .error e
      | .ok terms =>
        if terms.isEmpty then
          .error "AttributeError: float has no attribute backward"
        else heroCombine (heroBackwardGrads (heroLossExpr terms) θ1 policy) snap

/-- A policy with one weight parameter of one component. -/
def polW : List Param := [⟨"weight", [0]⟩]

/-- The loss `x0 * x0`. -/
def lossSq : Expr := Expr.mul (Expr.var 0) (Expr.var 0)

/-- Agrees with the exact square root at 4, the only value the gradient norm
takes in the concrete HERO runs below (gradient 2 at parameter 1, adaptive
scaling, norm `sqrt 4 = 2` exactly). -/
def rtFour : ℚ → ℚ := fun x => if x = 4 then 2 else 0

/-- A square-root stand-in for runs where the root's value is irrelevant
(`rho = 0`, or aborts before the perturbation). -/
def rtZero : ℚ → ℚ := fun _ => 0

/-- First-pass parameter enumeration of the C4 scenario: one weight of two
components. -/
def polGrow1 : List Param := [⟨"weight", [0, 1]⟩]

/-- Second-pass parameter enumeration of the C4 scenario: the same weight
after growing to three components between the passes. -/
def polGrow2 : List Param := [⟨"weight", [0, 1, 2]⟩]

/-- The loss `x0^2 + x1^2 + x2^2` of the C4 scenario. -/
def lossThree : Expr :=
  Expr.add (Expr.mul (Expr.var 0) (Expr.var 0))
    (Expr.add (Expr.mul (Expr.var 1) (Expr.var 1))
      (Expr.mul (Expr.var 2) (Expr.var 2)))

/-- Policy of the C5 scenario: a connected weight and a parameter of a
disconnected head (no component occurs in the loss). -/
def polHead : List Param := [⟨"weight", [0]⟩, ⟨"head", [1]⟩]

/-- The number of aligned parameters that pass the weight filter — the number
of summands the curvature-loss loop can accumulate. -/
def countIncluded : List Param → List (List ℚ) → List (List Expr) → Nat
  | [], _, _ => 0
  | _, [], _ => 0
  | _, _, [] => 0
  | p :: ps, _ :: gs, _ :: cs =>
    (if weight_filter p.name then 1 else 0) + countIncluded ps gs cs

/-- Evaluation distributes over a left fold of additions. -/
theorem eval_foldl_add (θ : List ℚ) (ts : List Expr) :
    ∀ e : Expr, Expr.eval θ (ts.foldl Expr.add e) =
      Expr.eval θ e + (ts.map (Expr.eval θ)).sum := by
  induction ts with
  | nil => simp
  | cons t ts ih =>
    intro e
    simp only [List.foldl_cons, ih, List.map_cons, List.sum_cons, Expr.eval]
    ring

/-- The value of the accumulated `hero_loss` is the sum of its terms. -/
theorem heroLossExpr_eval (θ : List ℚ) (ts : List Expr) :
    Expr.eval θ (heroLossExpr ts) = (ts.map (Expr.eval θ)).sum := by
  simp [heroLossExpr, eval_foldl_add, Expr.eval]

/-- Syntactic differentiation distributes over a left fold of additions. -/
theorem deriv_foldl_add (k : Nat) (ts : List Expr) :
    ∀ e : Expr, (ts.foldl Expr.add e).deriv k =
      (ts.map (Expr.deriv k)).foldl Expr.add (e.deriv k) := by
  induction ts with
  | nil => simp
  | cons t ts ih =>
    intro e
    simp only [List.foldl_cons, ih, List.map_cons, Expr.deriv]

/-- The derivative of the accumulated `hero_loss` evaluates to the sum of the
derivatives of its terms. -/
theorem heroLossExpr_deriv_eval (θ : List ℚ) (k : Nat) (ts : List Expr) :
    Expr.eval θ ((heroLossExpr ts).deriv k) =
      (ts.map (fun t => Expr.eval θ (t.deriv k))).sum := by
  simp only [heroLossExpr, deriv_foldl_add, eval_foldl_add, Expr.deriv,
    Expr.eval, List.map_map]
  rw [zero_add]
  rfl

/-- Broadcasting a tensor to its own length is the identity. -/
theorem bcastE_self (l : List Expr) : bcastE l.length l = l := by
  match l with
  | [] => rfl
  | [e] => rfl
  | a :: b :: t => rfl

/-- Broadcasting a numeric tensor to its own length is the identity. -/
theorem bcastQ_self (l : List ℚ) : bcastQ l.length l = l := by
  match l with
  | [] => rfl
  | [x] => rfl
  | a :: b :: t => rfl

/-- On equal-length operands `MSELoss` never broadcasts nor raises. -/
theorem mseExprE_of_len (c : List Expr) (g : List ℚ) (h : c.length = g.length) :
    mseExprE c g = .ok (mseExprCore c g) := by
  unfold mseExprE
  rw [if_pos (Or.inl h)]
  have hn : Nat.max c.length g.length = c.length := by rw [h]; exact Nat.max_self _
  show Except.ok (mseExprCore (bcastE (Nat.max c.length g.length) c)
    (bcastQ (Nat.max c.length g.length) g)) = _
  rw [hn, bcastE_self, h, bcastQ_self]

/-- The value of the MSE expression: the mean of the squared differences
between the live values and the detached constants. -/
theorem mseCore_eval (θ : List ℚ) (c : List Expr) (g : List ℚ) :
    Expr.eval θ (mseExprCore c g) =
      (1 / (c.length : ℚ)) *
        (List.zipWith (fun e x => (Expr.eval θ e - x) * (Expr.eval θ e - x)) c g).sum := by
  unfold mseExprCore
  simp only [Expr.eval, eval_foldl_add, zero_add, List.map_zipWith]
  congr 1
  simp only [Expr.sub, Expr.eval, sub_eq_add_neg]

/-- A sum of nonnegative rationals vanishes exactly when every summand does. -/
theorem sum_eq_zero_iff_of_nonneg (l : List ℚ) (h : ∀ x ∈ l, 0 ≤ x) :
    l.sum = 0 ↔ ∀ x ∈ l, x = 0 := by
  induction l with
  | nil => simp
  | cons a l ih =>
    have ha : 0 ≤ a := h a (List.mem_cons_self a l)
    have hl : ∀ x ∈ l, 0 ≤ x := fun x hx => h x (List.mem_cons_of_mem a hx)
    have hsum : 0 ≤ l.sum := List.sum_nonneg hl
    simp only [List.sum_cons, List.mem_cons]
    constructor
    · intro h0
      have ha0 : a = 0 := by linarith
      have hl0 : l.sum = 0 := by linarith
      intro x hx
      rcases hx with hx | hx
      · rw [hx]; exact ha0
      · exact ((ih hl).mp hl0) x hx
    · intro hall
      have ha0 : a = 0 := hall a (Or.inl rfl)
      have hl0 : l.sum = 0 := (ih hl).mpr (fun x hx => hall x (Or.inr hx))
      rw [ha0, hl0, add_zero]

/-- The squared-difference sum of the MSE is nonnegative. -/
theorem zip_sq_sum_nonneg (θ : List ℚ) :
    ∀ (c : List Expr) (g : List ℚ),
      0 ≤ (List.zipWith (fun e x => (Expr.eval θ e - x) * (Expr.eval θ e - x)) c g).sum := by
  intro c
  induction c with
  | nil => intro g; simp
  | cons e c ih =>
    intro g
    cases g with
    | nil => simp
    | cons x g =>
      simp only [List.zipWith_cons_cons, List.sum_cons]
      exact add_nonneg (mul_self_nonneg _) (ih g)

/-- On equal-length lists, the squared-difference sum vanishes exactly when
the live values coincide with the detached constants. -/
theorem zip_sq_sum_eq_zero (θ : List ℚ) :
    ∀ (c : List Expr) (g : List ℚ), c.length = g.length →
      ((List.zipWith (fun e x => (Expr.eval θ e - x) * (Expr.eval θ e - x)) c g).sum = 0 ↔
        c.map (Expr.eval θ) = g) := by
  intro c
  induction c with
  | nil =>
    intro g hg
    cases g with
    | nil => simp
    | cons x g => simp at hg
  | cons e c ih =>
    intro g hg
    cases g with
    | nil => simp at hg
    | cons x g =>
      simp only [List.length_cons, Nat.succ_inj] at hg
      simp only [List.zipWith_cons_cons, List.sum_cons, List.map_cons, List.cons_inj_right,
        List.cons.injEq]
      have h1 : 0 ≤ (Expr.eval θ e - x) * (Expr.eval θ e - x) := mul_self_nonneg _
      have h2 : 0 ≤ (List.zipWith (fun e x => (Expr.eval θ e - x) * (Expr.eval θ e - x)) c g).sum :=
        zip_sq_sum_nonneg θ c g
      constructor
      · intro h0
        have hh : (Expr.eval θ e - x) * (Expr.eval θ e - x) = 0 := by linarith
        have hv : Expr.eval θ e = x := by
          have := mul_self_eq_zero.mp hh
          linarith
        exact ⟨hv, (ih g hg).mp (by linarith)⟩
      · intro ⟨hv, hrest⟩
        rw [hv, sub_self, mul_zero, (ih g hg).mpr hrest, zero_add]

/-- The MSE value is nonnegative. -/
theorem mseCore_nonneg (θ : List ℚ) (c : List Expr) (g : List ℚ) :
    0 ≤ Expr.eval θ (mseExprCore c g) := by
  rw [mseCore_eval]
  exact mul_nonneg (by positivity) (zip_sq_sum_nonneg θ c g)

/-- On equal-length operands the MSE value vanishes exactly when the live
values coincide with the detached constants. -/
theorem mseCore_eq_zero_iff (θ : List ℚ) (c : List Expr) (g : List ℚ)
    (h : c.length = g.length) :
    Expr.eval θ (mseExprCore c g) = 0 ↔ c.map (Expr.eval θ) = g := by
  rw [mseCore_eval]
  cases c with
  | nil =>
    cases g with
    | nil => simp
    | cons x g => simp at h
  | cons e c =>
    have hn : ((e :: c).length : ℚ) ≠ 0 := by
      simp only [List.length_cons, Nat.cast_succ]
      positivity
    rw [mul_eq_zero]
    constructor
    · intro h0
      rcases h0 with h0 | h0
      · exact absurd (by simpa [one_div] using h0) hn
      · exact (zip_sq_sum_eq_zero θ (e :: c) g h).mp h0
    · intro h0
      exact Or.inr ((zip_sq_sum_eq_zero θ (e :: c) g h).mpr h0)

/-- Each squared-difference term of the MSE has vanishing derivative at a
point where the live value equals the detached constant. -/
theorem zip_sq_deriv_zero (θ : List ℚ) (k : Nat) :
    ∀ (c : List Expr) (g : List ℚ), c.map (Expr.eval θ) = g →
      ∀ t ∈ List.zipWith (fun e x =>
          Expr.mul (e.sub (Expr.const x)) (e.sub (Expr.const x))) c g,
        Expr.eval θ (t.deriv k) = 0 := by
  intro c
  induction c with
  | nil => intro g hg t ht; simp at ht
  | cons e c ih =>
    intro g hg t ht
    cases g with
    | nil => simp at hg
    | cons x g =>
      simp only [List.map_cons, List.cons.injEq] at hg
      simp only [List.zipWith_cons_cons, List.mem_cons] at ht
      rcases ht with ht | ht
      · subst ht
        simp only [Expr.sub, Expr.deriv, Expr.eval, hg.1]
        ring
      · exact ih g hg.2 t ht

/-- At a point where the live gradient values equal the detached constants,
the derivative of the MSE expression vanishes (the stationarity used by the
zero-rho reduction). -/
theorem mseCore_deriv_eval_zero (θ : List ℚ) (k : Nat) (c : List Expr)
    (g : List ℚ) (h : c.map (Expr.eval θ) = g) :
    Expr.eval θ ((mseExprCore c g).deriv k) = 0 := by
  unfold mseExprCore
  simp only [Expr.deriv, Expr.eval, deriv_foldl_add, eval_foldl_add, List.map_map]
  have hz : ((List.zipWith (fun e x =>
      Expr.mul (e.sub (Expr.const x)) (e.sub (Expr.const x))) c g).map
        (Expr.eval θ ∘ Expr.deriv k)).sum = 0 := by
    apply List.sum_eq_zero
    intro y hy
    rcases List.mem_map.mp hy with ⟨t, ht, rfl⟩
    exact zip_sq_deriv_zero θ k c g h t ht
  rw [hz]
  ring

/-- Two equal tensor lists agree on every included index. -/
theorem includedAgree_refl {α : Type} [DecidableEq α] :
    ∀ (policy : List Param) (l : List α), includedAgree policy l l = true := by
  intro policy
  induction policy with
  | nil => intro l; cases l <;> rfl
  | cons p ps ih =>
    intro l
    cases l with
    | nil => rfl
    | cons g gs =>
      simp only [includedAgree, ih gs, decide_eq_true_eq, Bool.and_true]
      cases weight_filter p.name <;> simp

/-- A successful first-pass snapshot (lines 186-189) means every parameter was
connected to the loss, and records exactly the backward gradients at the entry
point. -/
theorem heroSnapshot_ok (lossE : Expr) (θ : List ℚ) :
    ∀ (policy : List Param) (snap : List (List ℚ)),
      heroSnapshot lossE θ policy = .ok snap →
      (∀ p ∈ policy, p.connected lossE = true) ∧
        snap = policy.map (fun p => p.idxs.map (fun j => (lossE.deriv j).eval θ)) := by
  intro policy
  induction policy with
  | nil =>
    intro snap h
    simp only [heroSnapshot] at h
    cases h
    exact ⟨by intro p hp; simp at hp, rfl⟩
  | cons p ps ih =>
    intro snap h
    simp only [heroSnapshot, backwardGrad] at h
    by_cases hc : p.connected lossE
    · rw [if_pos hc] at h
      cases hrec : heroSnapshot lossE θ ps with
      | error e => rw [hrec] at h; cases h
      | ok gs =>
        rw [hrec] at h
        cases h
        rcases ih gs hrec with ⟨hconn, hform⟩
        refine ⟨?_, ?_⟩
        · intro q hq
          rcases List.mem_cons.mp hq with hq | hq
          · rw [hq]; exact hc
          · exact hconn q hq
        · simp only [List.map_cons, hform]
    · rw [if_neg hc] at h
      cases h

/-- A successful `autograd.grad` call (lines 222-223) returns exactly the
per-component derivative expressions of the loss. -/
theorem heroLiveExprs_ok (lossE : Expr) :
    ∀ (policy : List Param) (live : List (List Expr)),
      heroLiveExprs lossE policy = .ok live →
      live = policy.map (fun p => p.idxs.map (fun j => lossE.deriv j)) := by
  intro policy
  induction policy with
  | nil =>
    intro live h
    simp only [heroLiveExprs] at h
    cases h
    rfl
  | cons p ps ih =>
    intro live h
    simp only [heroLiveExprs] at h
    by_cases hc : p.connected lossE
    · rw [if_pos hc] at h
      cases hrec : heroLiveExprs lossE ps with
      | error e => rw [hrec] at h; cases h
      | ok gs =>
        rw [hrec] at h
        cases h
        simp only [List.map_cons, ih gs hrec]
    · rw [if_neg hc] at h
      cases h

/-- With `rho = 0` the SAM perturbation displacement vanishes: `first_step`
leaves every parameter component unchanged. -/
theorem first_step_zero (rt : ℚ → ℚ) (lossE : Expr) (policy : List Param)
    (θ : List ℚ) : first_step rt 0 lossE policy θ = θ := by
  unfold first_step
  simp only [zero_div, zero_mul, add_zero, ite_self]
  have : (θ.enum.map fun jv => jv.2) = θ := by
    rw [show (fun jv : Nat × ℚ => jv.2) = Prod.snd from rfl, List.enum_map_snd]
  exact this

/-- Adding a pointwise-zero mapped list does not change the other operand. -/
theorem zipWith_add_map_zero (idxs : List Nat) (f g : Nat → ℚ)
    (hf : ∀ j ∈ idxs, f j = 0) :
    List.zipWith (· + ·) (idxs.map f) (idxs.map g) = idxs.map g := by
  induction idxs with
  | nil => rfl
  | cons j js ih =>
    simp only [List.map_cons, List.zipWith_cons_cons]
    rw [hf j (List.mem_cons_self j js), zero_add,
      ih (fun i hi => hf i (List.mem_cons_of_mem j hi))]

/-- Product rule at the evaluation level. -/
theorem eval_deriv_mul (θ : List ℚ) (k : Nat) (a b : Expr) :
    Expr.eval θ ((Expr.mul a b).deriv k) =
      Expr.eval θ (a.deriv k) * Expr.eval θ b +
        Expr.eval θ a * Expr.eval θ (b.deriv k) := rfl

/-- Every term the curvature-loss loop accumulates has vanishing derivative at
a point where the detached snapshot equals the live gradient values (the
situation of the zero-rho reduction, where the perturbed point is the entry
point itself). -/
theorem heroSumE_deriv_zero (θ : List ℚ) (k : Nat) :
    ∀ (policy : List Param) (snap : List (List ℚ)) (live : List (List Expr))
      (terms : List Expr),
      heroSumE policy snap live = .ok terms →
      includedAgree policy snap (live.map (fun v => v.map (Expr.eval θ))) = true →
      ∀ t ∈ terms, Expr.eval θ (t.deriv k) = 0 := by
  intro policy
  induction policy with
  | nil =>
    intro snap live terms hok hagree t ht
    cases snap <;> cases live <;> simp only [heroSumE] at hok <;> cases hok <;> simp at ht
  | cons p ps ih =>
    intro snap live terms hok hagree t ht
    cases snap with
    | nil =>
      cases live <;> simp only [heroSumE] at hok <;> cases hok <;> simp at ht
    | cons g gs =>
      cases live with
      | nil =>
        simp only [heroSumE] at hok; cases hok; simp at ht
      | cons c cs =>
        simp only [List.map_cons, includedAgree, Bool.and_eq_true] at hagree
        simp only [heroSumE] at hok
        by_cases hf : weight_filter p.name
        · rw [if_pos hf] at hok
          have hg : g = c.map (Expr.eval θ) := by
            rcases hagree with ⟨h1, _⟩
            rw [hf] at h1
            simpa using h1
          have hlen : c.length = g.length := by rw [hg, List.length_map]
          rw [mseExprE_of_len c g hlen] at hok
          cases hrec : heroSumE ps gs cs with
          | error e => rw [hrec] at hok; cases hok
          | ok rest =>
            rw [hrec] at hok
            cases hok
            rcases List.mem_cons.mp ht with ht | ht
            · subst ht
              rw [eval_deriv_mul, mseCore_deriv_eval_zero θ k c g hg.symm]
              simp [Expr.deriv, Expr.eval]
            · exact ih gs cs rest hrec hagree.2 t ht
        · rw [if_neg hf] at hok
          exact ih gs cs terms hok hagree.2 t ht

/-- When the curvature-loss gradients all evaluate to zero, the combination
loop returns exactly the detached post-pass copies — which at the entry point
are the plain backward gradients. -/
theorem heroCombine_zero (lossE heroE : Expr) (θ : List ℚ)
    (hz : ∀ k, Expr.eval θ (heroE.deriv k) = 0) :
    ∀ (policy : List Param) (gs : List (Option (List ℚ))),
      heroCombine (heroBackwardGrads heroE θ policy) (heroPostCopies lossE θ policy) = .ok gs →
      (∀ p ∈ policy, p.connected lossE = true) →
      gs = backwardGrads lossE θ policy := by
  intro policy
  induction policy with
  | nil =>
    intro gs h hconn
    simp only [heroBackwardGrads, heroPostCopies, backwardGrads, List.map_nil] at h ⊢
    cases h
    rfl
  | cons p ps ih =>
    intro gs h hconn
    simp only [heroBackwardGrads, heroPostCopies, List.map_cons, heroCombine] at h
    by_cases hocc : p.idxs.any (fun j => heroE.occurs j)
    · rw [if_pos hocc] at h
      simp only [gradAccum, List.length_map, if_pos rfl] at h
      rw [zipWith_add_map_zero p.idxs (fun j => (heroE.deriv j).eval θ)
        (fun j => (lossE.deriv j).eval θ) (fun j _ => hz j)] at h
      cases hrec : heroCombine (heroBackwardGrads heroE θ ps) (heroPostCopies lossE θ ps) with
      | error e =>
        rw [show (List.map (fun p => if p.idxs.any (fun j => heroE.occurs j) then
          some (List.map (fun j => (heroE.deriv j).eval θ) p.idxs) else none) ps) =
          heroBackwardGrads heroE θ ps from rfl,
          show (List.map (fun p => List.map (fun j => (lossE.deriv j).eval θ) p.idxs) ps) =
          heroPostCopies lossE θ ps from rfl, hrec] at h
        cases h
      | ok rest =>
        rw [show (List.map (fun p => if p.idxs.any (fun j => heroE.occurs j) then
          some (List.map (fun j => (heroE.deriv j).eval θ) p.idxs) else none) ps) =
          heroBackwardGrads heroE θ ps from rfl,
          show (List.map (fun p => List.map (fun j => (lossE.deriv j).eval θ) p.idxs) ps) =
          heroPostCopies lossE θ ps from rfl, hrec] at h
        cases h
        have hp : p.connected lossE = true := hconn p (List.mem_cons_self p ps)
        simp only [backwardGrads, backwardGrad, List.map_cons, if_pos hp]
        rw [ih rest hrec (fun q hq => hconn q (List.mem_cons_of_mem p hq))]
        rfl
    · rw [if_neg hocc] at h
      simp only [gradAccum] at h
      cases h

/-- Claim C3: when `rho = 0` the SAM and HERO strategies reduce to the base
path's gradient.  The `first_step` displacement is zero, the SAM branch's
descent gradients are exactly the backward gradients of the total loss at the
entry point (what the base branch computes before its clipping), and whenever
the HERO branch completes, its combined descent gradients are the same: the
curvature loss is stationary at an unperturbed point, so its backward pass
contributes zero and only the detached copies — equal to the entry-point
gradients — remain. -/
theorem zero_rho_reduces_to_base (rt : ℚ → ℚ) (rho : ℚ) (lossE : Expr)
    (policy : List Param) (θ0 : List ℚ) (hrho : rho = 0) :
    (samTrain rt rho lossE policy θ0).descentGrads =
      .ok (backwardGrads lossE θ0 policy) ∧
    first_step rt rho lossE policy θ0 = θ0 ∧
    ∀ gs, (heroTrain rt rho lossE policy policy θ0).descentGrads = .ok gs →
      gs = backwardGrads lossE θ0 policy := by
  subst hrho
  refine ⟨by simp [samTrain, first_step_zero], first_step_zero rt lossE policy θ0, ?_⟩
  intro gs h
  unfold heroTrain at h
  simp only [first_step_zero] at h
  split at h
  · simp at h
  · rename_i loss_grads heq
    split at h
    · simp at h
    · rename_i live heq2
      split at h
      · simp at h
      · rename_i terms heq3
        split at h
        · simp at h
        · split at h
          · simp at h
          · rename_i combined heq4
            injection h with hcg
            have hcopies : live.map (fun v => v.map (Expr.eval θ0)) =
                heroPostCopies lossE θ0 policy := by
              rw [heroLiveExprs_ok lossE policy live heq2]
              simp [heroPostCopies, List.map_map]
            have hsnap := heroSnapshot_ok lossE θ0 policy loss_grads heq
            have hagree : includedAgree policy loss_grads
                (live.map (fun v => v.map (Expr.eval θ0))) = true := by
              rw [hcopies, heroPostCopies, hsnap.2]
              exact includedAgree_refl policy _
            have hz : ∀ k, Expr.eval θ0 ((heroLossExpr terms).deriv k) = 0 := by
              intro k
              rw [heroLossExpr_deriv_eval]
              apply List.sum_eq_zero
              intro y hy
              rcases List.mem_map.mp hy with ⟨t, ht, rfl⟩
              exact heroSumE_deriv_zero θ0 k policy loss_grads live terms heq3 hagree t ht
            rw [hcopies] at heq4
            rw [← hcg]
            exact heroCombine_zero lossE (heroLossExpr terms) θ0 hz policy combined heq4 hsnap.1

/-- Helper: `includedAgree` with empty parameter list is trivially true. -/
theorem includedAgree_nil₁ {α : Type} [DecidableEq α] (l m : List α) :
    includedAgree [] l m = true := by cases l <;> cases m <;> rfl

/-- Helper: `includedAgree` with empty second list is trivially true. -/
theorem includedAgree_nil₂ {α : Type} [DecidableEq α] (p : List Param) (m : List α) :
    includedAgree p [] m = true := by cases p <;> cases m <;> rfl

/-- Helper: `includedAgree` with empty third list is trivially true. -/
theorem includedAgree_nil₃ {α : Type} [DecidableEq α] (p : List Param) (l : List α) :
    includedAgree p l [] = true := by cases p <;> cases l <;> rfl

/-- Claim C7: the HERO curvature term (the value of the accumulated
`hero_loss`, at any parameter point) is nonnegative, and vanishes exactly when
the detached pre-perturbation snapshot coincides with the post-perturbation
live gradient values for every aligned parameter admitted by the bias/bn
weight filter.  The shape hypothesis rules out the one-element broadcast of
`MSELoss`, under which the two tensors could not be compared entrywise. -/
theorem curvature_term_nonneg_iff (θ : List ℚ) (policy : List Param)
    (snap : List (List ℚ)) (live : List (List Expr)) (terms : List Expr)
    (hok : heroSumE policy snap live = .ok terms)
    (hsh : shapesAligned policy snap live = true) :
    0 ≤ Expr.eval θ (heroLossExpr terms) ∧
    (Expr.eval θ (heroLossExpr terms) = 0 ↔
      includedAgree policy snap (live.map (fun v => v.map (Expr.eval θ))) = true) := by
  induction policy generalizing snap live terms with
  | nil =>
    cases snap <;> cases live <;> simp only [heroSumE] at hok <;> cases hok <;>
      simp [heroLossExpr, Expr.eval, includedAgree_nil₁]
  | cons p ps ih =>
    cases snap with
    | nil =>
      cases live <;> simp only [heroSumE] at hok <;> cases hok <;>
        simp [heroLossExpr, Expr.eval, includedAgree_nil₂]
    | cons g gs =>
      cases live with
      | nil =>
        simp only [heroSumE] at hok
        cases hok
        simp [heroLossExpr, Expr.eval, includedAgree_nil₃]
      | cons c cs =>
        simp only [shapesAligned, Bool.and_eq_true] at hsh
        simp only [heroSumE] at hok
        by_cases hf : weight_filter p.name
        · rw [if_pos hf] at hok
          have hlen : c.length = g.length := by
            have h1 := hsh.1
            rw [hf] at h1
            simpa using h1
          rw [mseExprE_of_len c g hlen] at hok
          cases hrec : heroSumE ps gs cs with
          | error e => rw [hrec] at hok; cases hok
          | ok rest =>
            rw [hrec] at hok
            cases hok
            have IH := ih gs cs rest hrec hsh.2
            have hsplit : Expr.eval θ (heroLossExpr
                (Expr.mul (Expr.const lambda_hero) (mseExprCore c g) :: rest)) =
                lambda_hero * Expr.eval θ (mseExprCore c g) +
                  Expr.eval θ (heroLossExpr rest) := by
              simp [heroLossExpr_eval, Expr.eval]
            rw [hsplit]
            have hm0 : 0 ≤ Expr.eval θ (mseExprCore c g) := mseCore_nonneg θ c g
            have hl1 : lambda_hero = 1 := rfl
            rw [hl1, one_mul]
            constructor
            · linarith [IH.1]
            · constructor
              · intro h0
                have hm : Expr.eval θ (mseExprCore c g) = 0 := by linarith [IH.1]
                have hr : Expr.eval θ (heroLossExpr rest) = 0 := by linarith
                simp only [List.map_cons, includedAgree, Bool.and_eq_true]
                refine ⟨?_, (IH.2).mp hr⟩
                rw [hf]
                simp only [Bool.not_true, Bool.false_or, decide_eq_true_eq]
                exact ((mseCore_eq_zero_iff θ c g hlen).mp hm).symm
              · intro hag
                simp only [List.map_cons, includedAgree, Bool.and_eq_true, hf,
                  Bool.not_true, Bool.false_or, decide_eq_true_eq] at hag
                rw [(mseCore_eq_zero_iff θ c g hlen).mpr hag.1.symm,
                  (IH.2).mpr hag.2, add_zero]
        · rw [if_neg hf] at hok
          have IH := ih gs cs terms hok hsh.2
          simp only [List.map_cons, includedAgree, hf, Bool.not_false, Bool.true_or,
            Bool.true_and]
          exact IH

/-- The curvature-loss loop accumulates exactly one term per aligned parameter
passing the weight filter. -/
theorem heroSumE_length :
    ∀ (policy : List Param) (snap : List (List ℚ)) (live : List (List Expr))
      (terms : List Expr), heroSumE policy snap live = .ok terms →
      terms.length = countIncluded policy snap live := by
  intro policy
  induction policy with
  | nil =>
    intro snap live terms hok
    cases snap <;> cases live <;> simp only [heroSumE] at hok <;> cases hok <;> rfl
  | cons p ps ih =>
    intro snap live terms hok
    cases snap with
    | nil =>
      cases live <;> simp only [heroSumE] at hok <;> cases hok <;> rfl
    | cons g gs =>
      cases live with
      | nil => simp only [heroSumE] at hok; cases hok; rfl
      | cons c cs =>
        simp only [heroSumE] at hok
        by_cases hf : weight_filter p.name
        · rw [if_pos hf] at hok
          cases hm : mseExprE c g with
          | error e => rw [hm] at hok; cases hok
          | ok m =>
            rw [hm] at hok
            cases hrec : heroSumE ps gs cs with
            | error e => rw [hrec] at hok; cases hok
            | ok rest =>
              rw [hrec] at hok
              cases hok
              simp only [countIncluded, if_pos hf, List.length_cons, ih gs cs rest hrec]
              omega
        · rw [if_neg hf] at hok
          simp only [countIncluded, if_neg hf, ih gs cs terms hok]
          omega

/-- Changing only the gradients of parameters rejected by the bias/bn filter
(with unchanged tensor counts) leaves the accumulated curvature loss
literally unchanged. -/
theorem heroSumE_congr :
    ∀ (policy : List Param) (snap snap2 : List (List ℚ))
      (live live2 : List (List Expr)),
      includedAgree policy snap snap2 = true →
      includedAgree policy live live2 = true →
      snap.length = snap2.length → live.length = live2.length →
      heroSumE policy snap live = heroSumE policy snap2 live2 := by
  intro policy
  induction policy with
  | nil =>
    intro snap snap2 live live2 h1 h2 hl1 hl2
    cases snap <;> cases live <;> cases snap2 <;> cases live2 <;> rfl
  | cons p ps ih =>
    intro snap snap2 live live2 h1 h2 hl1 hl2
    cases snap with
    | nil =>
      cases snap2 with
      | nil => cases live <;> cases live2 <;> rfl
      | cons g2 gs2 => simp at hl1
    | cons g gs =>
      cases snap2 with
      | nil => simp at hl1
      | cons g2 gs2 =>
        cases live with
        | nil =>
          cases live2 with
          | nil => rfl
          | cons c2 cs2 => simp at hl2
        | cons c cs =>
          cases live2 with
          | nil => simp at hl2
          | cons c2 cs2 =>
            simp only [includedAgree, Bool.and_eq_true] at h1 h2
            simp only [List.length_cons, Nat.succ_inj] at hl1 hl2
            simp only [heroSumE]
            by_cases hf : weight_filter p.name
            · have hg : g = g2 := by
                have hh := h1.1
                rw [hf] at hh
                simpa using hh
              have hc : c = c2 := by
                have hh := h2.1
                rw [hf] at hh
                simpa using hh
              rw [if_pos hf, if_pos hf, ← hg, ← hc,
                ih gs gs2 cs cs2 h1.2 h2.2 hl1 hl2]
            · rw [if_neg hf, if_neg hf]
              exact ih gs gs2 cs cs2 h1.2 h2.2 hl1 hl2

/-- Claim C8: parameters whose name contains the bias or batch-normalization
marker never contribute to the curvature loss.  Changing the detached snapshot
or the live gradients of every filtered-out parameter (keeping tensor counts)
leaves the accumulated `hero_loss` literally unchanged, and a successful
accumulation holds exactly one `lambda_hero`-weighted MSE term per aligned
parameter that passes the name filter. -/
theorem bias_bn_never_contribute (policy : List Param)
    (snap snap2 : List (List ℚ)) (live live2 : List (List Expr))
    (h1 : includedAgree policy snap snap2 = true)
    (h2 : includedAgree policy live live2 = true)
    (hl1 : snap.length = snap2.length) (hl2 : live.length = live2.length) :
    heroSumE policy snap live = heroSumE policy snap2 live2 ∧
    ∀ terms, heroSumE policy snap live = .ok terms →
      terms.length = countIncluded policy snap live :=
  ⟨heroSumE_congr policy snap snap2 live live2 h1 h2 hl1 hl2,
   fun terms ht => heroSumE_length policy snap live terms ht⟩

/-- Witness for C8 on a concrete two-parameter model: the bias gradients are
changed on both sides, the accumulated loss is unchanged, and its single term
comes from the one filter-passing parameter. -/
theorem bias_bn_never_contribute_witness :
    includedAgree [⟨"l1.weight", [0]⟩, ⟨"l1.bias", [1]⟩]
      [[(1 : ℚ)], [5]] [[(1 : ℚ)], [50]] = true ∧
    includedAgree [⟨"l1.weight", [0]⟩, ⟨"l1.bias", [1]⟩]
      [[Expr.const 2], [Expr.const 3]] [[Expr.const 2], [Expr.const 30]] = true ∧
    heroSumE [⟨"l1.weight", [0]⟩, ⟨"l1.bias", [1]⟩] [[(1 : ℚ)], [5]]
        [[Expr.const 2], [Expr.const 3]] =
      heroSumE [⟨"l1.weight", [0]⟩, ⟨"l1.bias", [1]⟩] [[(1 : ℚ)], [50]]
        [[Expr.const 2], [Expr.const 30]] ∧
    ∀ terms, heroSumE [⟨"l1.weight", [0]⟩, ⟨"l1.bias", [1]⟩] [[(1 : ℚ)], [5]]
        [[Expr.const 2], [Expr.const 3]] = .ok terms →
      terms.length = countIncluded [⟨"l1.weight", [0]⟩, ⟨"l1.bias", [1]⟩]
        [[(1 : ℚ)], [5]] [[Expr.const 2], [Expr.const 3]] := by
  have h := bias_bn_never_contribute [⟨"l1.weight", [0]⟩, ⟨"l1.bias", [1]⟩]
    [[(1 : ℚ)], [5]] [[(1 : ℚ)], [50]] [[Expr.const 2], [Expr.const 3]]
    [[Expr.const 2], [Expr.const 30]] (by decide) (by decide) (by decide) (by decide)
  exact ⟨by decide, by decide, h.1, h.2⟩

/-- Witness for C7 on a concrete model: one filter-passing parameter whose
snapshot and live values agree (curvature term 0) next to an excluded bias. -/
theorem curvature_term_nonneg_iff_witness :
    heroSumE [⟨"weight", [0]⟩, ⟨"fc.bias", [1]⟩] [[(3 : ℚ)], [9]]
        [[Expr.const 3], [Expr.const 7]] =
      .ok [Expr.mul (Expr.const lambda_hero) (mseExprCore [Expr.const 3] [3])] ∧
    shapesAligned [⟨"weight", [0]⟩, ⟨"fc.bias", [1]⟩] [[(3 : ℚ)], [9]]
        [[Expr.const 3], [Expr.const 7]] = true ∧
    (0 ≤ Expr.eval [] (heroLossExpr
        [Expr.mul (Expr.const lambda_hero) (mseExprCore [Expr.const 3] [3])]) ∧
      (Expr.eval [] (heroLossExpr
          [Expr.mul (Expr.const lambda_hero) (mseExprCore [Expr.const 3] [3])]) = 0 ↔
        includedAgree [⟨"weight", [0]⟩, ⟨"fc.bias", [1]⟩] [[(3 : ℚ)], [9]]
          ([[Expr.const 3], [Expr.const 7]].map (fun v => v.map (Expr.eval []))) = true)) := by
  have hw : weight_filter "weight" = true := by decide
  have hb : weight_filter "fc.bias" = false := by decide
  have hok : heroSumE [⟨"weight", [0]⟩, ⟨"fc.bias", [1]⟩] [[(3 : ℚ)], [9]]
      [[Expr.const 3], [Expr.const 7]] =
      .ok [Expr.mul (Expr.const lambda_hero) (mseExprCore [Expr.const 3] [3])] := by
    simp [heroSumE, hw, hb, mseExprE, bcastE, bcastQ]
  exact ⟨hok, by decide,
    curvature_term_nonneg_iff [] [⟨"weight", [0]⟩, ⟨"fc.bias", [1]⟩]
      [[(3 : ℚ)], [9]] [[Expr.const 3], [Expr.const 7]]
      [Expr.mul (Expr.const lambda_hero) (mseExprCore [Expr.const 3] [3])]
      hok (by decide)⟩

/-- Claim C1 (amended): in the HERO branch, after the curvature loss is
backpropagated, the gradient handed to the final descent step is, for every
parameter, the curvature-loss gradient plus the detached copy of the SECOND,
post-perturbation backward gradients (`loss_grads_copy`, lines 224-226 and
236-237) — not the first-pass pre-perturbation snapshot (`loss_grads`), which
the combination never reads. -/
theorem hero_combines_post_copies (rt : ℚ → ℚ) (rho : ℚ) (lossE : Expr)
    (policy : List Param) (θ0 : List ℚ) (snap : List (List ℚ))
    (live : List (List Expr)) (terms : List Expr)
    (hs : heroSnapshot lossE θ0 policy = .ok snap)
    (hl : heroLiveExprs lossE policy = .ok live)
    (ht : heroSumE policy snap live = .ok terms)
    (hne : terms ≠ []) :
    (heroTrain rt rho lossE policy policy θ0).descentGrads =
      heroCombine
        (heroBackwardGrads (heroLossExpr terms)
          (first_step rt rho lossE policy θ0) policy)
        (heroPostCopies lossE (first_step rt rho lossE policy θ0) policy) := by
  have hcopies : live.map (fun v => v.map (Expr.eval (first_step rt rho lossE policy θ0))) =
      heroPostCopies lossE (first_step rt rho lossE policy θ0) policy := by
    rw [heroLiveExprs_ok lossE policy live hl]
    simp [heroPostCopies, List.map_map]
  have hemp : terms.isEmpty = false := by
    cases terms with
    | nil => exact absurd rfl hne
    | cons a t => rfl
  unfold heroTrain
  simp only [hs, hl, ht, hemp, Bool.false_eq_true, if_false, hcopies]
  cases hc : heroCombine
      (heroBackwardGrads (heroLossExpr terms) (first_step rt rho lossE policy θ0) policy)
      (heroPostCopies lossE (first_step rt rho lossE policy θ0) policy) with
  | error e => simp [hc]
  | ok combined => simp [hc]

/-- Counterexample to claim C1 as stated: on a one-parameter model with loss
`x^2` at `x = 1` and `rho = 1` (gradient norm exactly 2, so the square root is
rational and `rtFour` agrees with it at the only queried input 4), the HERO
branch's descent gradient is the curvature-loss gradient plus the detached
POST-perturbation copy, and differs from the curvature-loss gradient plus the
pre-perturbation snapshot that the claim asserts (`heroCombinePreSnapshot`). -/
theorem hero_pre_snapshot_counterexample :
    (heroTrain rtFour 1 lossSq polW polW [1]).descentGrads ≠
      heroCombinePreSnapshot rtFour 1 lossSq polW [1] ∧
    (heroTrain rtFour 1 lossSq polW polW [1]).descentGrads =
      .ok [some [(24 * 10 ^ 12 + 2) / (2 * 10 ^ 12 + 1)]] ∧
    heroCombinePreSnapshot rtFour 1 lossSq polW [1] =
      .ok [some [(20 * 10 ^ 12 + 2) / (2 * 10 ^ 12 + 1)]] := by
  have hw : weight_filter "weight" = true := by decide
  have h1 : (heroTrain rtFour 1 lossSq polW polW [1]).descentGrads =
      .ok [some [(24 * 10 ^ 12 + 2) / (2 * 10 ^ 12 + 1)]] := by
    norm_num [heroTrain, heroSnapshot, backwardGrad, backwardGrads, Param.connected,
      Expr.occurs, Expr.deriv, Expr.eval, first_step, gradNormSq, adaptive, rtFour,
      polW, lossSq, List.enum, List.enumFrom, heroLiveExprs, heroSumE, hw, mseExprE,
      bcastE, bcastQ, heroLossExpr, mseExprCore, heroBackwardGrads, gradAccum,
      heroCombine, heroPostCopies, Expr.sub, lambda_hero, List.isEmpty]
  have h2 : heroCombinePreSnapshot rtFour 1 lossSq polW [1] =
      .ok [some [(20 * 10 ^ 12 + 2) / (2 * 10 ^ 12 + 1)]] := by
    norm_num [heroCombinePreSnapshot, heroSnapshot, backwardGrad, Param.connected,
      Expr.occurs, Expr.deriv, Expr.eval, first_step, gradNormSq, adaptive, rtFour,
      polW, lossSq, List.enum, List.enumFrom, heroLiveExprs, heroSumE, hw, mseExprE,
      bcastE, bcastQ, heroLossExpr, mseExprCore, heroBackwardGrads, gradAccum,
      heroCombine, Expr.sub, lambda_hero, List.isEmpty]
  refine ⟨?_, h1, h2⟩
  rw [h1, h2]
  intro hcontra
  simp only [Except.ok.injEq, List.cons.injEq, Option.some.injEq, and_true] at hcontra
  have : ((24 * 10 ^ 12 + 2) / (2 * 10 ^ 12 + 1) : ℚ) =
      (20 * 10 ^ 12 + 2) / (2 * 10 ^ 12 + 1) := hcontra
  norm_num at this

/-- Witness for the amended C1 on the same concrete model: all hypotheses of
`hero_combines_post_copies` hold and the conclusion follows by applying it. -/
theorem hero_combines_post_copies_witness :
    heroSnapshot lossSq [1] polW = .ok [[2]] ∧
    heroLiveExprs lossSq polW = .ok [[lossSq.deriv 0]] ∧
    heroSumE polW [[2]] [[lossSq.deriv 0]] =
      .ok [Expr.mul (Expr.const lambda_hero) (mseExprCore [lossSq.deriv 0] [2])] ∧
    (heroTrain rtFour 1 lossSq polW polW [1]).descentGrads =
      heroCombine
        (heroBackwardGrads
          (heroLossExpr [Expr.mul (Expr.const lambda_hero) (mseExprCore [lossSq.deriv 0] [2])])
          (first_step rtFour 1 lossSq polW [1]) polW)
        (heroPostCopies lossSq (first_step rtFour 1 lossSq polW [1]) polW) := by
  have hw : weight_filter "weight" = true := by decide
  have hs : heroSnapshot lossSq [1] polW = .ok [[2]] := by
    norm_num [heroSnapshot, backwardGrad, Param.connected, Expr.occurs, Expr.deriv,
      Expr.eval, polW, lossSq]
  have hl : heroLiveExprs lossSq polW = .ok [[lossSq.deriv 0]] := by
    simp [heroLiveExprs, Param.connected, Expr.occurs, polW, lossSq]
  have ht : heroSumE polW [[2]] [[lossSq.deriv 0]] =
      .ok [Expr.mul (Expr.const lambda_hero) (mseExprCore [lossSq.deriv 0] [2])] := by
    simp [heroSumE, hw, polW, mseExprE, bcastE, bcastQ]
  exact ⟨hs, hl, ht,
    hero_combines_post_copies rtFour 1 lossSq polW [1] [[2]] [[lossSq.deriv 0]]
      [Expr.mul (Expr.const lambda_hero) (mseExprCore [lossSq.deriv 0] [2])]
      hs hl ht (by simp)⟩

/-- Claim C2: gradient-norm clipping happens exactly in the base branch.  The
base dispatch performs one backward pass on the total loss, clips the global
gradient norm at `max_grad_norm`, and hands the clipped gradients to the
optimizer step; the SAM branch descends on the raw perturbed-point backward
gradients, and neither the SAM nor the HERO branch reads `max_grad_norm` at
all (their outcomes are unchanged under any other value `max_grad_norm2`).
The dispatch's else-branch covers any string other than "HERO"/"SAM", so
within the configured set of choices clipping occurs exactly for "base". -/
theorem clip_only_in_base (rt : ℚ → ℚ) (rho max_grad_norm max_grad_norm2 : ℚ)
    (lossE : Expr) (policy : List Param) (θ0 : List ℚ) :
    trainStep "base" rt rho max_grad_norm lossE policy θ0 =
      ⟨θ0, .ok (clip_grad_norm rt max_grad_norm (backwardGrads lossE θ0 policy))⟩ ∧
    trainStep "SAM" rt rho max_grad_norm lossE policy θ0 =
      ⟨θ0, .ok (backwardGrads lossE (first_step rt rho lossE policy θ0) policy)⟩ ∧
    trainStep "SAM" rt rho max_grad_norm lossE policy θ0 =
      trainStep "SAM" rt rho max_grad_norm2 lossE policy θ0 ∧
    trainStep "HERO" rt rho max_grad_norm lossE policy θ0 =
      trainStep "HERO" rt rho max_grad_norm2 lossE policy θ0 := by
  refine ⟨rfl, rfl, rfl, rfl⟩

/-- Witness for C3 on a one-parameter model with loss `x^2` at `x = 1` and
`rho = 0`: the SAM descent gradients equal the entry-point backward gradients,
the perturbation is the identity, and the HERO branch completes with the same
gradients. -/
theorem zero_rho_witness :
    (samTrain rtZero 0 lossSq polW [1]).descentGrads =
      .ok (backwardGrads lossSq [1] polW) ∧
    first_step rtZero 0 lossSq polW [1] = [1] ∧
    ([some [2]] : List (Option (List ℚ))) = backwardGrads lossSq [1] polW := by
  have h := zero_rho_reduces_to_base rtZero 0 lossSq polW [1] rfl
  refine ⟨h.1, h.2.1, h.2.2 [some [2]] ?_⟩
  have hw : weight_filter "weight" = true := by decide
  norm_num [heroTrain, heroSnapshot, backwardGrad, backwardGrads, Param.connected,
    Expr.occurs, Expr.deriv, Expr.eval, first_step, gradNormSq, adaptive, rtZero,
    polW, lossSq, List.enum, List.enumFrom, heroLiveExprs, heroSumE, hw, mseExprE,
    bcastE, bcastQ, heroLossExpr, mseExprCore, heroBackwardGrads, gradAccum,
    heroCombine, heroPostCopies, Expr.sub, lambda_hero, List.isEmpty]

/-- Claim C4 (amended): when the HERO branch raises after a successful first
pass — as it does on a gradient shape mismatch in the curvature loss — the
parameter store at the moment of the abort holds the PERTURBED values written
by `first_step`, not the entry values.  The revert to the entry point lives in
`second_step`, which the exception never reaches, so the step is not
all-or-nothing. -/
theorem hero_abort_leaves_perturbed (rt : ℚ → ℚ) (rho : ℚ) (lossE : Expr)
    (policy1 policy2 : List Param) (θ0 : List ℚ) (snap : List (List ℚ))
    (e : String)
    (hs : heroSnapshot lossE θ0 policy1 = .ok snap)
    (he : (heroTrain rt rho lossE policy1 policy2 θ0).descentGrads = .error e) :
    (heroTrain rt rho lossE policy1 policy2 θ0).paramsAtEnd =
      first_step rt rho lossE policy1 θ0 := by
  unfold heroTrain at he ⊢
  simp only [hs] at he ⊢
  cases hl : heroLiveExprs lossE policy2 with
  | error e2 => simp [hl]
  | ok live =>
    simp only [hl] at he ⊢
    cases hsum : heroSumE policy2 snap live with
    | error e2 => simp [hsum]
    | ok terms =>
      simp only [hsum] at he ⊢
      cases hemp : terms.isEmpty with
      | true => simp [hemp]
      | false =>
        simp only [hemp, Bool.false_eq_true, if_false] at he ⊢
        cases hc : heroCombine
            (heroBackwardGrads (heroLossExpr terms)
              (first_step rt rho lossE policy1 θ0) policy2)
            (live.map (fun v => v.map (Expr.eval (first_step rt rho lossE policy1 θ0)))) with
        | error e2 => simp [hc]
        | ok combined => simp [hc] at he

/-- Counterexample to claim C4 as stated: the single weight parameter of
`polGrow1` (two components) grows to three components between the passes
(`polGrow2`), so `MSELoss` in the curvature loop gets non-broadcastable sizes
3 and 2 and raises — and at that moment the parameters are NOT at their entry
values `[1, 0, 1]`: component 0 carries the `first_step` perturbation (the
adaptive gradient norm is exactly 2, so `rtFour` agrees with the true square
root at its only queried input 4). -/
theorem hero_abort_counterexample :
    (heroTrain rtFour 1 lossThree polGrow1 polGrow2 [1, 0, 1]).descentGrads =
      .error "RuntimeError: mse size mismatch" ∧
    (heroTrain rtFour 1 lossThree polGrow1 polGrow2 [1, 0, 1]).paramsAtEnd ≠
      [1, 0, 1] := by
  have hw : weight_filter "weight" = true := by decide
  have htr : heroTrain rtFour 1 lossThree polGrow1 polGrow2 [1, 0, 1] =
      ⟨[4000000000001 / 2000000000001, 0, 1],
        .error "RuntimeError: mse size mismatch"⟩ := by
    norm_num [heroTrain, heroSnapshot, backwardGrad, Param.connected, Expr.occurs,
      Expr.deriv, Expr.eval, first_step, gradNormSq, rtFour, adaptive, List.enum,
      List.enumFrom, polGrow1, polGrow2, lossThree, heroLiveExprs,
      heroSumE, hw, mseExprE]
  rw [htr]
  refine ⟨rfl, ?_⟩
  intro hcontra
  simp only [List.cons.injEq] at hcontra
  have : ((4000000000001 : ℚ) / 2000000000001) = 1 := hcontra.1
  norm_num at this

/-- Witness for the amended C4 on the same concrete scenario: the snapshot of
pass one succeeds, the step aborts with the mismatch error, and by
`hero_abort_leaves_perturbed` the parameters at the abort are the perturbed
values. -/
theorem hero_abort_leaves_perturbed_witness :
    heroSnapshot lossThree [1, 0, 1] polGrow1 = .ok [[2, 0]] ∧
    (heroTrain rtFour 1 lossThree polGrow1 polGrow2 [1, 0, 1]).descentGrads =
      .error "RuntimeError: mse size mismatch" ∧
    (heroTrain rtFour 1 lossThree polGrow1 polGrow2 [1, 0, 1]).paramsAtEnd =
      first_step rtFour 1 lossThree polGrow1 [1, 0, 1] := by
  have hw : weight_filter "weight" = true := by decide
  have hs : heroSnapshot lossThree [1, 0, 1] polGrow1 = .ok [[2, 0]] := by
    norm_num [heroSnapshot, backwardGrad, Param.connected, Expr.occurs, Expr.deriv,
      Expr.eval, polGrow1, lossThree]
  have he : (heroTrain rtFour 1 lossThree polGrow1 polGrow2 [1, 0, 1]).descentGrads =
      .error "RuntimeError: mse size mismatch" := by
    norm_num [heroTrain, heroSnapshot, backwardGrad, Param.connected, Expr.occurs,
      Expr.deriv, Expr.eval, polGrow1, polGrow2, lossThree, heroLiveExprs,
      heroSumE, hw, mseExprE]
  exact ⟨hs, he,
    hero_abort_leaves_perturbed rtFour 1 lossThree polGrow1 polGrow2 [1, 0, 1]
      [[2, 0]] "RuntimeError: mse size mismatch" hs he⟩

/-- Claim C5 (code bug): on a model with a parameter disconnected from the
loss (named head, gradient `None` after backward), the HERO branch does not
skip it — it raises at the snapshot loop (line 189, `param.grad.data` on
`None`) before the curvature loss is ever built, leaving the parameters at
their entry values.  The `!= None` guard at line 233 is unreachable for this
purpose. -/
theorem missing_grad_aborts_step :
    heroTrain rtZero 1 lossSq polHead polHead [1, 5] =
      ⟨[1, 5], .error "AttributeError: NoneType has no attribute data"⟩ := by
  norm_num [heroTrain, heroSnapshot, backwardGrad, Param.connected, Expr.occurs,
    polHead, lossSq]

/-- Claim C6: on every batch and every pass the assembled losses satisfy the
stated formulas — policy loss is minus the mean of advantage-weighted log
probabilities, value loss is the mean squared error between the returns and
the flattened values, entropy loss is minus the mean entropy when an analytic
entropy exists and minus the mean of the negated log probabilities otherwise,
and the total is the `ent_coef`/`vf_coef`-weighted sum. -/
theorem loss_assembly_formulas (ent_coef vf_coef : ℚ) (adv : List ℚ)
    (out : EvalOut) (returns : List ℚ) :
    (computeLosses ent_coef vf_coef adv out returns).policy_loss =
      -(meanQ (List.zipWith (· * ·) adv out.log_prob)) ∧
    (computeLosses ent_coef vf_coef adv out returns).value_loss =
      mean_squared_error returns out.values ∧
    (computeLosses ent_coef vf_coef adv out returns).entropy_loss =
      (match out.entropy with
       | none => -(meanQ (out.log_prob.map (fun l => -l)))
       | some ent => -(meanQ ent)) ∧
    (computeLosses ent_coef vf_coef adv out returns).total_loss =
      (computeLosses ent_coef vf_coef adv out returns).policy_loss +
        ent_coef * (computeLosses ent_coef vf_coef adv out returns).entropy_loss +
        vf_coef * (computeLosses ent_coef vf_coef adv out returns).value_loss :=
  ⟨rfl, rfl, rfl, rfl⟩

/-- Claim C10: in every strategy the scalars recorded as `train/entropy_loss`,
`train/policy_loss` and `train/value_loss` are the sub-losses of the first,
pre-perturbation pass; the sub-losses recomputed at the perturbed point
(`out2`) never reach the logger — replacing them by any other values
(`out3`) leaves the logged record unchanged. -/
theorem logged_metrics_first_pass (optimize_choice : String)
    (ent_coef vf_coef : ℚ) (adv : List ℚ) (out1 : EvalOut) (returns : List ℚ)
    (out2 out3 : EvalOut) :
    loggedMetrics (runBatchLocals optimize_choice ent_coef vf_coef adv out1 returns out2) =
      ((computeLosses ent_coef vf_coef adv out1 returns).entropy_loss,
       (computeLosses ent_coef vf_coef adv out1 returns).policy_loss,
       (computeLosses ent_coef vf_coef adv out1 returns).value_loss) ∧
    loggedMetrics (runBatchLocals optimize_choice ent_coef vf_coef adv out1 returns out2) =
      loggedMetrics (runBatchLocals optimize_choice ent_coef vf_coef adv out1 returns out3) := by
  unfold runBatchLocals loggedMetrics
  constructor <;> split_ifs <;> rfl

/-- Claim C9: with `normalize_advantage=True` and the fixed advantage batch
`[1,1,1,1,1,-1,-1,-1,-1,-1]` of 10 transitions, the normalized advantages
`(a - mean) / (std + 1e-8)` (line 164) have mean exactly 0, and their
unbiased sample variance (the estimator underlying torch's default `std`)
is within `1e-6` of 1: the only deviation from exactly 1 is the `1e-8`
epsilon in the denominator. -/
theorem normalized_advantages_standardized :
    torchMean (normalizeAdvantages advBatch) = 0 ∧
    |sampleVariance (normalizeAdvantages advBatch) - 1| ≤ 1e-6 := by
  have hmean : torchMean advBatch = 0 := by
    simp [torchMean, advBatch]
  have harg : (advBatch.map (fun x => (x - torchMean advBatch) ^ 2)).sum /
      ((advBatch.length : ℝ) - 1) = 10 / 9 := by
    rw [hmean]
    simp [advBatch]
    norm_num
  have hstd : torchStd advBatch = Real.sqrt (10 / 9) := by rw [torchStd, harg]
  obtain ⟨s, hs_def⟩ : ∃ s, Real.sqrt (10 / 9) = s := ⟨_, rfl⟩
  rw [hs_def] at hstd
  have hs2 : s ^ 2 = 10 / 9 := by rw [← hs_def]; exact Real.sq_sqrt (by norm_num)
  have hs0 : (0 : ℝ) ≤ s := hs_def ▸ Real.sqrt_nonneg _
  have hs1 : (1 : ℝ) ≤ s := by nlinarith
  have hs4 : s ≤ 2 := by nlinarith
  have hd : (0 : ℝ) < s + 1e-8 := by nlinarith
  have h1 : torchMean (normalizeAdvantages advBatch) = 0 := by
    rw [torchMean, normalizeAdvantages, hmean, hstd]
    simp [advBatch]
    ring
  have hvar : sampleVariance (normalizeAdvantages advBatch) =
      10 / (9 * (s + 1e-8) ^ 2) := by
    rw [sampleVariance, h1, normalizeAdvantages, hmean, hstd]
    simp [advBatch]
    field_simp
    ring
  refine ⟨h1, ?_⟩
  rw [hvar]
  have hv1 : 10 / (9 * (s + 1e-8) ^ 2) ≤ 1 := by
    rw [div_le_one (by positivity)]
    nlinarith
  have hv2 : 1 - 1e-6 ≤ 10 / (9 * (s + 1e-8) ^ 2) := by
    rw [le_div_iff₀ (by positivity)]
    nlinarith
  rw [abs_le]
  constructor <;> linarith
